import Mathlib

/-
Verification development for the lagoonjs time-series engine.

The definitions below are a shallow embedding of the JavaScript sources:

  * `src/src/modules/generator.js` — the `Generator` (bucket) class and the
    pond `TimeSeries` class (constructor branches, `toJSON`, `bisect`,
    `setCollection`, the rollup helpers and the cross-series reduce).
  * `src/src/pond/lib/timerangeevent.js` — `TimeRangeEvent` (notably `key()`).
  * `src/unnamed/part_000` — `IndexedEvent` (notably `key()`).

JavaScript machine integers (epoch milliseconds, bucket positions) are
modelled as `Int`; JS strings as `String`; `undefined` results as `Option`;
thrown exceptions as `Except JsErr`.  Components of the repository whose
source is not available (the `Collection`, `Index`, `TimeEvent`, `Pipeline`
and base `Event` classes) are modelled from the specification and carry a
`Modelled from the spec:` marker in their doc comment.
-/

set_option autoImplicit false

/-- Decimal digit characters, used by the JS number-to-string model. -/
def isDigitCh (c : Char) : Bool :=
  '0' ≤ c && c ≤ '9'

/-- Character for a single decimal digit value. -/
def digitCh (n : Nat) : Char :=
  Char.ofNat (48 + n)

/-- Fuel-driven accumulator loop producing the decimal digits of `n`
(most significant first), mirroring the usual div/mod digit extraction.
The fuel is always sufficient when called through `natDec`. -/
def natDecAux : Nat → Nat → List Char → List Char
  | 0, _, acc => acc
  | fuel + 1, n, acc =>
    if n < 10 then digitCh n :: acc
    else natDecAux fuel (n / 10) (digitCh (n % 10) :: acc)

/-- Decimal digit list of a natural number (e.g. `123 ↦ ['1','2','3']`). -/
def natDec (n : Nat) : List Char :=
  natDecAux (n + 1) n []

/-- Decimal value of a digit list, the inverse of `natDec`. -/
def decVal (ds : List Char) : Nat :=
  ds.foldl (fun a c => 10 * a + (c.toNat - 48)) 0

/-- Character list a JS template literal produces for an integral Number
(`String(n)`): a minus sign followed by the decimal digits when negative,
just the digits otherwise. -/
def jsIntChars (i : Int) : List Char :=
  if i < 0 then '-' :: natDec i.natAbs else natDec i.toNat

/-- String a JS template literal produces for an integral Number. -/
def jsIntStr (i : Int) : String :=
  String.mk (jsIntChars i)

/-- Truncated (toward zero) integer quotient: the value JS
`parseInt(a / b, 10)` yields for integral `a` and positive integral `b`
whose quotient is in decimal-notation range. -/
def jsQuot (a : Int) (b : Nat) : Int :=
  if 0 ≤ a then Int.ofNat (a.toNat / b) else -Int.ofNat (a.natAbs / b)

/-- Unit letters accepted by the bucket-size grammar (`generator.js`,
the `units` table: s, m, h, d). -/
def isUnitCh (c : Char) : Bool :=
  c = 's' || c = 'm' || c = 'h' || c = 'd'

/-- Length in seconds of one bucket-size unit (`units[unit].length` in
`generator.js`). -/
def unitLength (c : Char) : Nat :=
  if c = 's' then 1
  else if c = 'm' then 60
  else if c = 'h' then 3600
  else 86400

/-- Leftmost match of the unanchored regex `([0-9]+)([smhd])` used by
`Generator.getLengthFromSize`.  `run` accumulates the digit run immediately
preceding the current position; a match is found exactly when a unit letter
follows a non-empty digit run (backtracking inside a digit run cannot help,
since every shorter digit prefix is followed by another digit). -/
def scanSizeRe (run : List Char) : List Char → Option (List Char × Char)
  | [] => none
  | c :: cs =>
    if isDigitCh c then scanSizeRe (run ++ [c]) cs
    else if isUnitCh c && run ≠ [] then some (run, c)
    else scanSizeRe [] cs

/-- Embedding of `Generator.getLengthFromSize` (generator.js:38).  Applies
the regex `([0-9]+)([smhd])` to `size`; on a match returns
`parseInt(digits) * units[unit].length * 1000` (the bucket length in ms),
otherwise returns `undefined` (`none`) — no error is raised. -/
def getLengthFromSize (size : String) : Option Nat :=
  match scanSizeRe [] size.data with
  | some (digits, unit) => some (decVal digits * unitLength unit * 1000)
  | none => none

/-- Embedding of `Generator.getBucketPosFromDate` (generator.js:54).
`dateMs` is `moment.utc(date).valueOf()`, the UTC epoch milliseconds of the
instant (timezone-independent).  The JS code computes
`parseInt(dd / length, 10)`: division by `undefined` or `0` yields
`NaN`/`Infinity` and hence `parseInt` gives `NaN` (modelled `none`);
otherwise the quotient truncates toward zero. -/
def getBucketPosFromDate (dateMs : Int) (length : Option Nat) : Option Int :=
  match length with
  | none => none
  | some 0 => none
  | some l => some (jsQuot dateMs l)

/-- Rendering of a bucket position in the index string: `NaN` prints as
"NaN", an integral number in decimal (JS prints `-0` as "0", matching
`jsIntStr 0`). -/
def posStr (pos : Option Int) : String :=
  match pos with
  | none => "NaN"
  | some p => jsIntStr p

/-- Embedding of `Generator.bucketIndex` (generator.js:60): the string
`size + "-" + pos` where `pos` comes from `getBucketPosFromDate` with the
length the constructor computed via `getLengthFromSize`. -/
def bucketIndex (size : String) (dateMs : Int) : String :=
  size ++ "-" ++ posStr (getBucketPosFromDate dateMs (getLengthFromSize size))

/-- JSON-style scalar values carried in an event's data map.  `undef` is the
JS `undefined` that `_.object` introduces for a missing point entry. -/
inductive JsVal where
  | num (n : Int)
  | str (s : String)
  | boolean (b : Bool)
  | nullv
  | undef
  deriving DecidableEq, Repr

/-- Data payload of an event: the entries of its (Immutable.Map) data in
insertion order. -/
abbrev EvData := List (String × JsVal)

/-- The three event variants of the pond event family.  `time` is the
point event (`TimeEvent`, source not in the repo snapshot; its key is the
epoch-ms timestamp per the spec), `timerange` is `TimeRangeEvent`
(timerangeevent.js), `indexed` is `IndexedEvent` (unnamed/part_000). -/
inductive Ev where
  | time (t : Int) (d : EvData)
  | timerange (b e : Int) (d : EvData)
  | indexed (idx : String) (d : EvData)
  deriving DecidableEq, Repr

/-- Data payload of an event. -/
def Ev.data : Ev → EvData
  | .time _ d => d
  | .timerange _ _ d => d
  | .indexed _ d => d

/-- Decimal value with sign of a digit string (the relevant fragment of JS
number parsing used for index positions). -/
def parseDecDigits (cs : List Char) : Option Int :=
  if cs ≠ [] && cs.all isDigitCh then some (Int.ofNat (decVal cs)) else none

/-- Days from the civil epoch 1970-01-01 of a (proleptic Gregorian) UTC
date, the standard era-based computation.  Modelled from the spec: the
`Index` class resolving calendar strings is not in the repo snapshot. -/
def daysFromCivil (y : Int) (m : Nat) (d : Nat) : Int :=
  let y' : Int := if m ≤ 2 then y - 1 else y
  let era : Int := Int.fdiv y' 400
  let yoe : Nat := (y' - era * 400).toNat
  let mp : Nat := (m + 9) % 12
  let doy : Nat := (153 * mp + 2) / 5 + d - 1
  let doe : Nat := yoe * 365 + yoe / 4 - yoe / 100 + doy
  era * 146097 + Int.ofNat doe - 719468

/-- Splitting a character list at every dash (the char-level counterpart of
splitting an index string on "-"). -/
def splitDash : List Char → List (List Char)
  | [] => [[]]
  | c :: cs =>
    let r := splitDash cs
    if c = '-' then [] :: r
    else
      match r with
      | [] => [[c]]
      | p :: ps => (c :: p) :: ps

/-- Begin instant (epoch ms) of an index string.  Modelled from the spec:
`Index` resolution is not in the repo snapshot.  Fixed-duration indices
`"<sizeSpec>-<n>"` begin at `n * size_ms` (§3); calendar indices `"YYYY"`,
`"YYYY-MM"`, `"YYYY-MM-DD"` begin at UTC midnight of the denoted date.
Other strings (not produced by the engine) resolve to 0. -/
def indexBegin (s : String) : Int :=
  match splitDash s.data with
  | [p1, p2] =>
    match getLengthFromSize (String.mk p1), parseDecDigits p2 with
    | some len, some n => n * Int.ofNat len
    | _, _ =>
      match parseDecDigits p1, parseDecDigits p2 with
      | some y, some mo => (daysFromCivil y mo.toNat 1) * 86400000
      | _, _ => 0
  | [p1] =>
    match parseDecDigits p1 with
    | some y => (daysFromCivil y 1 1) * 86400000
    | none => 0
  | [p1, p2, p3] =>
    match parseDecDigits p1, parseDecDigits p2, parseDecDigits p3 with
    | some y, some mo, some dd => (daysFromCivil y mo.toNat dd.toNat) * 86400000
    | _, _, _ => 0
  | _ => 0

/-- Timestamp of an event in epoch ms: a `TimeEvent`'s own time, a
`TimeRangeEvent`'s `begin()` (timerangeevent.js `timestamp()`), and an
`IndexedEvent`'s `begin()` of its index range (part_000 `timestamp()`,
with the range resolution modelled from the spec via `indexBegin`). -/
def Ev.tsOf : Ev → Int
  | .time t _ => t
  | .timerange b _ _ => b
  | .indexed idx _ => indexBegin idx

/-- Exceptions thrown (or, for `badEventArg`, modelled as thrown by the
absent util parser) by the embedded code paths, identified by throw site. -/
inductive JsErr where
  /-- "TimeSeries was passed non-chronological events" (generator.js:316)
  or "Collection supplied is not chronological" (generator.js:538). -/
  | nonChronological
  /-- "Unknown event type: ..." (generator.js:1463). -/
  | unknownEventType
  /-- TypeError raised by destructuring an `undefined` value. -/
  | typeError
  /-- "windowSize must be supplied, for example '5m' for five minute
  rollups" (generator.js:1248). -/
  | missingWindowSize
  /-- "aggregation object must be supplied, for example:
  \x7bvalue: \x7bvalue: avg()\x7d\x7d" (generator.js:1254 and 1297). -/
  | missingAggregation
  /-- "A list of TimeSeries must be supplied to reduce" (generator.js:1590). -/
  | seriesListRequired
  /-- "reducer function must be supplied, for example avg()"
  (generator.js:1594). -/
  | reducerRequired
  /-- Modelled from the spec: the util key parser (source absent) rejects a
  key of the wrong shape for the event variant. -/
  | badEventArg
  deriving DecidableEq, Repr

/-- The event variant selected by the first column name (`TimeSeries.event`,
generator.js:1454). -/
inductive Variant where
  | time
  | timerange
  | index
  deriving DecidableEq, Repr

/-- Embedding of the static `TimeSeries.event(eventKey)` dispatch
(generator.js:1454): unknown strings throw. -/
def eventOf : String → Except JsErr Variant
  | "time" => .ok .time
  | "timerange" => .ok .timerange
  | "index" => .ok .index
  | _ => .error .unknownEventType

/-- Modelled from the spec (§4.2): `Collection.isChronological()` checks
that the timestamps are non-decreasing (the `Collection` source is not in
the repo snapshot). -/
def isChronological : List Int → Bool
  | [] => true
  | [_] => true
  | a :: b :: rest => (a ≤ b) && isChronological (b :: rest)

/-- Chronological check of an event list via the events' timestamps. -/
def evChron (evs : List Ev) : Bool :=
  isChronological (evs.map Ev.tsOf)

/-- A `TimeSeries` value: the metadata `buildMetaData` stores (name, utc
flag, optional index) together with the wrapped collection's event list. -/
structure Series where
  name : String
  utc : Bool
  indexMeta : Option String
  events : List Ev
  deriving DecidableEq, Repr

/-- Metadata supplied to a constructor call (each field optional, as in the
JS options object). -/
structure MetaIn where
  name : Option String
  utc : Option Bool
  index : Option String
  deriving DecidableEq, Repr

/-- Embedding of `buildMetaData` (generator.js:99): missing or empty name
becomes "", missing utc defaults to `true`, an index string is kept. -/
def buildMeta (m : MetaIn) (evs : List Ev) : Series :=
  { name := m.name.getD "", utc := m.utc.getD true, indexMeta := m.index,
    events := evs }

/-- Embedding of the `TimeSeries` constructor's event-list branch
(generator.js:280): wraps the events in a Collection and fails unless they
are chronological. -/
def fromEvents (events : List Ev) (meta : MetaIn) : Except JsErr Series :=
  if evChron events then .ok (buildMeta meta events)
  else .error .nonChronological

/-- Embedding of the `TimeSeries` constructor's collection branch
(generator.js:288): adopts the supplied collection and fails unless it is
chronological. -/
def fromCollection (collection : List Ev) (meta : MetaIn) : Except JsErr Series :=
  if evChron collection then .ok (buildMeta meta collection)
  else .error .nonChronological

/-- The first entry of a tabular point: an epoch-ms number for "time", a
`[beginMs, endMs]` pair for "timerange", an index string for "index". -/
inductive RawKey where
  | knum (n : Int)
  | kpair (b e : Int)
  | kstr (s : String)
  deriving DecidableEq, Repr

/-- Insertion of a key into a JS object under construction: an existing
key's value is overwritten in place, a new key is appended. -/
def objInsert : EvData → String → JsVal → EvData
  | [], k, v => [(k, v)]
  | (k0, v0) :: rest, k, v =>
    if k0 = k then (k0, v) :: rest else (k0, v0) :: objInsert rest k v

/-- Pairing of column names with point values; `_.object` fills missing
values with `undefined`. -/
def zipPad : List String → List JsVal → List (String × JsVal)
  | [], _ => []
  | f :: fs, [] => (f, .undef) :: zipPad fs []
  | f :: fs, v :: vs => (f, v) :: zipPad fs vs

/-- Embedding of `_.object(eventFields, eventValues)` (generator.js:305):
the JS object whose entries pair fields with values in order. -/
def jsObject (fields : List String) (vals : List JsVal) : EvData :=
  (zipPad fields vals).foldl (fun d kv => objInsert d kv.1 kv.2) []

/-- Construction of one event from a raw key and a data object
(`new Event(t, d, options)`); a key of the wrong shape for the variant
makes the (absent, spec-modelled) util parser throw. -/
def mkEvent (v : Variant) (key : RawKey) (d : EvData) : Except JsErr Ev :=
  match v, key with
  | .time, .knum t => .ok (.time t d)
  | .timerange, .kpair b e => .ok (.timerange b e d)
  | .index, .kstr s => .ok (.indexed s d)
  | _, _ => .error .badEventArg

/-- The tabular (wire-format) object of §6 after the constructor's
destructuring applied the default `utc = true`. -/
structure Tabular where
  name : Option String
  index : Option String
  utc : Bool
  columns : List String
  points : List (RawKey × List JsVal)
  deriving DecidableEq, Repr

/-- Embedding of the `TimeSeries` constructor's columns/points branch
(generator.js:296): the first column selects the event variant, the rest
name the data fields of every point; construction fails on a non-
chronological result.  Note the destructuring `\x7b columns, points,
utc = true, ...meta2 \x7d` removes `utc` from the metadata passed to
`buildMetaData`, so the stored utc flag is always `true` on this path. -/
def fromTabular (tab : Tabular) : Except JsErr Series :=
  match tab.columns with
  | [] => .error .unknownEventType
  | eventKey :: eventFields =>
    match eventOf eventKey with
    | .error e => .error e
    | .ok v =>
      match tab.points.mapM (fun p => mkEvent v p.1 (jsObject eventFields p.2)) with
      | .error e => .error e
      | .ok events =>
        if evChron events then
          .ok { name := tab.name.getD "", utc := true, indexMeta := tab.index,
                events := events }
        else .error .nonChronological

/-- The value `this.schema().fromBuffer(arg)` would produce in the
constructor's Buffer branch (generator.js:244) were it reached: the
record has a name, the column names, and per point a key (named by the
first column) and a full data record. -/
structure DecodedBuffer where
  name : String
  columns : List String
  points : List (RawKey × EvData)
  deriving DecidableEq, Repr

/-- The event key the constructor's Buffer branch passes to `schema()`:
the call `this.schema()` at generator.js:244 supplies no argument, so
inside `schema` the `eventKey` parameter is `undefined` (`none`). -/
def schemaCallEventKey : Option String := none

/-- Embedding of `TimeSeries.event` applied to a possibly-missing key:
`event(undefined)` falls through to the default case and throws
"Unknown event type: undefined" (generator.js:1462). -/
def eventOfOpt : Option String → Except JsErr Variant
  | some k => eventOf k
  | none => .error .unknownEventType

/-- Embedding of the schema construction `this.schema(eventKey)`
(generator.js:346) to the extent the Buffer branch exercises it: building
the schema record evaluates `this.keySchema(eventKey)` (generator.js:361),
which dispatches `TimeSeries.event(eventKey)` (generator.js:337); an
unknown or missing event key therefore throws while the schema is being
built, before any buffer is decoded.  The schema value itself belongs to
the avro library and is represented here by the variant its key schema
encodes. -/
def schema (eventKey : Option String) : Except JsErr Variant :=
  eventOfOpt eventKey

/-- Embedding of the `TimeSeries` constructor's Buffer branch
(generator.js:238-265).  The branch runs
`obj = this.schema().fromBuffer(arg)` inside try/catch: `schema()` is
called with NO event key, so `event(undefined)` throws inside the try
while the schema is being built, `fromBuffer` is never reached, the catch
reports the error, and `obj` stays undefined for EVERY buffer; the
destructuring at generator.js:251 then throws a TypeError past the
constructor.  `decodeResult` stands for what `fromBuffer` would yield were
the schema construction to succeed; the success continuation
(generator.js:251-263 — variant dispatch on the decoded first column,
event building, and the `return` at :265 that would skip the
`isChronological` check at :315) is translated faithfully below but is
unreachable, exactly as in the source. -/
def fromBuffer (decodeResult : Option DecodedBuffer) : Except JsErr Series :=
  let obj : Option DecodedBuffer :=
    match schema schemaCallEventKey with
    | .error _ => none
    | .ok _ => decodeResult
  match obj with
  | none => .error .typeError
  | some obj =>
    match obj.columns with
    | [] => .error .unknownEventType
    | eventKey :: _ =>
      match eventOf eventKey with
      | .error e => .error e
      | .ok v =>
        match obj.points.mapM (fun p => mkEvent v p.1 p.2) with
        | .error e => .error e
        | .ok events =>
          .ok { name := obj.name, utc := true, indexMeta := none,
                events := events }

/-- Embedding of `TimeSeries.setCollection` (generator.js:536): unless the
`isChron` flag waives it, a non-chronological collection throws; otherwise
a new series with the supplied collection is returned. -/
def setCollection (s : Series) (collection : List Ev) (isChron : Bool) :
    Except JsErr Series :=
  if !isChron && !evChron collection then .error .nonChronological
  else .ok { s with events := collection }

/-- Embedding of `TimeSeries.atFirst` (generator.js:497) — the first event
of the collection, `undefined` when empty. -/
def atFirst (s : Series) : Option Ev :=
  s.events.head?

/-- Embedding of the loop of `TimeSeries.bisect` (generator.js:566) over
the remaining timestamps, `i` being the current row index: a timestamp
greater than the probe returns `i - 1` (clamped at 0, which Nat
subtraction matches), an exact match returns `i`, and falling off the end
returns `size - 1`. -/
def bisectLoop (tms : Int) : List Int → Nat → Nat
  | [], i => i - 1
  | t :: rest, i =>
    if tms < t then i - 1
    else if t = tms then i
    else bisectLoop tms rest (i + 1)

/-- Embedding of `TimeSeries.bisect` (generator.js:557) on the series'
timestamp list: `undefined` on an empty series, else the loop from start
hint `b`. -/
def bisectTs (ts : List Int) (tms : Int) (b : Nat) : Option Nat :=
  if ts.length = 0 then none else some (bisectLoop tms (ts.drop b) b)

/-- `TimeSeries.bisect` on a series (the timestamps are
`this.at(i).timestamp().getTime()`). -/
def Series.bisect (s : Series) (tms : Int) (b : Nat) : Option Nat :=
  bisectTs (s.events.map Ev.tsOf) tms b

/-- Modelled from the spec (§3): value equality of two event data maps
(`Immutable.is` on the data), insensitive to entry order. -/
def dataEq (d1 d2 : EvData) : Bool :=
  d1.all (fun kv => d2.lookup kv.1 == some kv.2) &&
    d2.all (fun kv => d1.lookup kv.1 == some kv.2)

/-- Modelled from the spec (§3): value equality of two events — same
variant, same key, equal data. -/
def evIs : Ev → Ev → Bool
  | .time t1 d1, .time t2 d2 => t1 == t2 && dataEq d1 d2
  | .timerange b1 e1 d1, .timerange b2 e2 d2 =>
    b1 == b2 && e1 == e2 && dataEq d1 d2
  | .indexed s1 d1, .indexed s2 d2 => s1 == s2 && dataEq d1 d2
  | _, _ => false

/-- Modelled from the spec (§3): `Collection.is` — value equality of two
collections, eventwise in order. -/
def collectionIs (a b : List Ev) : Bool :=
  a.length == b.length && (a.zip b).all (fun p => evIs p.1 p.2)

/-- Embedding of the static `TimeSeries.is` (generator.js:1486): equal
metadata and equal collection, by value. -/
def seriesIs (s1 s2 : Series) : Bool :=
  s1.name == s2.name && s1.utc == s2.utc && s1.indexMeta == s2.indexMeta &&
    collectionIs s1.events s2.events

/-- Folding the keys of one event's data into the column accumulator
(the loop body of `TimeSeries.columns`, generator.js:706): a key not seen
before is appended. -/
def addKeys (acc : List String) (d : EvData) : List String :=
  d.foldl (fun a kv => if a.contains kv.1 then a else a ++ [kv.1]) acc

/-- Embedding of `TimeSeries.columns` (generator.js:706): the data keys of
all events, in first-appearance order. -/
def Series.columns (evs : List Ev) : List String :=
  evs.foldl (fun acc e => addKeys acc e.data) []

/-- Variant tag of an event value. -/
def variantOfEv : Ev → Variant
  | .time .. => .time
  | .timerange .. => .timerange
  | .indexed .. => .index

/-- First column name `toJSON` writes for an event's class
(generator.js:414). -/
def variantStr : Ev → String
  | .time .. => "time"
  | .timerange .. => "timerange"
  | .indexed .. => "index"

/-- Embedding of the per-variant `toPoint` (timerangeevent.js:161,
part_000:112, and the spec for the absent `TimeEvent`): the key followed by
the data values in the data map's entry order. -/
def Ev.toPoint : Ev → RawKey × List JsVal
  | .time t d => (.knum t, d.map Prod.snd)
  | .timerange b e d => (.kpair b e, d.map Prod.snd)
  | .indexed idx d => (.kstr idx, d.map Prod.snd)

/-- Embedding of `TimeSeries.toJSON` (generator.js:407): `undefined` when
`atFirst()` yields no event; otherwise the metadata extended with the
columns (first event's variant string, then `columns()`) and one point per
event. -/
def toJSON (s : Series) : Option Tabular :=
  match atFirst s with
  | none => none
  | some e0 =>
    some { name := some s.name, index := s.indexMeta, utc := s.utc,
           columns := variantStr e0 :: Series.columns s.events,
           points := s.events.map Ev.toPoint }

/-- Modelled from the spec (§4.4): `Collection.sortByTime` — the events
re-sorted into non-decreasing timestamp order (the `Collection` source is
not in the repo snapshot). -/
def sortByTime (evs : List Ev) : List Ev :=
  List.insertionSort (fun a b => a.tsOf ≤ b.tsOf) evs

/-- Options object of `timeSeriesListEventReduce` (generator.js:1586): the
series list and reducer may be missing (`undefined` or not of the checked
shape); the remaining keys are metadata for the resulting series. -/
structure ReduceOptions where
  seriesList : Option (List Series)
  reducer : Option (List Ev → Option (List String) → List Ev)
  fieldSpec : Option (List String)
  meta : MetaIn

/-- Embedding of the static `TimeSeries.timeSeriesListEventReduce`
(generator.js:1586): a missing (or non-array) series list throws, then a
missing (or non-function) reducer throws; otherwise all events of all
series are flattened in order, the reducer is applied, the result is
sorted by time unless already chronological, and a new TimeSeries is
built from the resulting collection. -/
def timeSeriesListEventReduce (options : ReduceOptions) : Except JsErr Series :=
  match options.seriesList with
  | none => .error .seriesListRequired
  | some seriesList =>
    match options.reducer with
    | none => .error .reducerRequired
    | some reducer =>
      let eventList := seriesList.foldl (fun acc s => acc ++ s.events) []
      let events := reducer eventList options.fieldSpec
      let collection := if evChron events then events else sortByTime events
      fromCollection collection options.meta

/-- An aggregation reducer: a function from the list of column values of a
window to the aggregated value. -/
abbrev Reducer := List JsVal → JsVal

/-- An aggregation specification, `\x7boutField: \x7binField: fn\x7d\x7d`
flattened to (output field, input field, reducer) triples. -/
abbrev AggSpec := List (String × String × Reducer)

/-- Options object of `fixedWindowRollup` (generator.js:1245) after
destructuring with the default `toTimeEvents = false`. -/
structure RollupOptions where
  windowSize : Option String
  aggregation : Option AggSpec
  toTimeEvents : Bool

/-- First-appearance deduplication of a key list. -/
def dedupStrings (l : List String) : List String :=
  l.foldl (fun acc k => if acc.contains k then acc else acc ++ [k]) []

/-- Column extraction across a window's events. -/
def columnValues (evs : List Ev) (field : String) : List JsVal :=
  evs.filterMap (fun e => e.data.lookup field)

/-- Modelled from the spec (§4.3): the pipeline composition
`windowBy(windowSize) + emitOn("discard") + aggregate(agg)` with optional
`asTimeEvents()` (the `Pipeline` source is not in the repo snapshot).
Events are grouped by their bucket index; each window emits one event
whose data applies each reducer of the aggregation spec to the window's
column, represented by the window's Index (or its begin instant as a time
event when `toTimeEvents`). -/
def pipelineRollup (s : Series) (ws : String) (agg : AggSpec)
    (toTimeEvents : Bool) : List Ev :=
  let keyOf : Ev → String := fun e => bucketIndex ws e.tsOf
  let keys := dedupStrings (s.events.map keyOf)
  keys.map (fun k =>
    let group := s.events.filter (fun e => keyOf e == k)
    let d : EvData := agg.map (fun a => (a.1, a.2.2 (columnValues group a.2.1)))
    if toTimeEvents then .time (indexBegin k) d else .indexed k d)

/-- Embedding of `TimeSeries.fixedWindowRollup` (generator.js:1245): a
missing windowSize throws, then a missing aggregation throws; otherwise
the aggregator pipeline runs and the result is installed with the
chronological check waived (`setCollection(..., true)`,
generator.js:1273). -/
def fixedWindowRollup (s : Series) (options : RollupOptions) :
    Except JsErr Series :=
  match options.windowSize with
  | none => .error .missingWindowSize
  | some ws =>
    match options.aggregation with
    | none => .error .missingAggregation
    | some agg => setCollection s (pipelineRollup s ws agg options.toTimeEvents) true

/-- The options object `fixedWindowRollup` receives when a plain string is
passed in the options position (generator.js:1302 passes "1h"
positionally): destructuring a primitive string finds none of the named
properties, so every field takes its default. -/
def stringDestructured (_s : String) : RollupOptions :=
  { windowSize := none, aggregation := none, toTimeEvents := false }

/-- Embedding of `TimeSeries.hourlyRollup` (generator.js:1293): after its
own aggregation check it calls
`this.fixedWindowRollup("1h", aggregation, toTimeEvents)` — three
positional arguments to a function with a single options parameter, so
`fixedWindowRollup` destructures the string "1h" and the second and third
arguments are dropped. -/
def hourlyRollup (s : Series) (aggregation : Option AggSpec)
    (_toTimeEvents : Bool) : Except JsErr Series :=
  match aggregation with
  | none => .error .missingAggregation
  | some _ => fixedWindowRollup s (stringDestructured "1h")

/-- Embedding of the per-variant `key()`: `TimeRangeEvent.key`
(timerangeevent.js:134) renders "begin,end" in epoch ms; `IndexedEvent.key`
(part_000:90) is the index string; a point event's key is its epoch-ms
timestamp (spec §3, `TimeEvent` source absent). -/
def evKey : Ev → String
  | .time t _ => jsIntStr t
  | .timerange b e _ => jsIntStr b ++ "," ++ jsIntStr e
  | .indexed idx _ => idx

/-
Helper lemmas: decimal rendering.
-/

theorem digitCh_isDigit (m : Nat) (h : m < 10) : isDigitCh (digitCh m) = true := by
  interval_cases m <;> decide

theorem digitCh_toNat (m : Nat) (h : m < 10) : (digitCh m).toNat = 48 + m := by
  interval_cases m <;> decide

theorem natDecAux_mem (fuel : Nat) :
    ∀ (n : Nat) (acc : List Char) (c : Char), c ∈ natDecAux fuel n acc →
      isDigitCh c = true ∨ c ∈ acc := by
  induction fuel with
  | zero => intro n acc c hc; exact Or.inr hc
  | succ fuel ih =>
    intro n acc c hc
    by_cases hn : n < 10
    · simp only [natDecAux, if_pos hn, List.mem_cons] at hc
      rcases hc with h | h
      · exact Or.inl (h ▸ digitCh_isDigit n hn)
      · exact Or.inr h
    · simp only [natDecAux, if_neg hn] at hc
      rcases ih (n / 10) (digitCh (n % 10) :: acc) c hc with h | h
      · exact Or.inl h
      · rcases List.mem_cons.mp h with h | h
        · exact Or.inl (h ▸ digitCh_isDigit (n % 10) (Nat.mod_lt n (by omega)))
        · exact Or.inr h

theorem natDec_mem (n : Nat) (c : Char) (hc : c ∈ natDec n) : isDigitCh c = true := by
  rcases natDecAux_mem (n + 1) n [] c hc with h | h
  · exact h
  · cases h

theorem natDecAux_append (fuel : Nat) :
    ∀ (n : Nat) (acc : List Char),
      natDecAux fuel n acc = natDecAux fuel n [] ++ acc := by
  induction fuel with
  | zero => intro n acc; simp [natDecAux]
  | succ fuel ih =>
    intro n acc
    by_cases hn : n < 10
    · simp [natDecAux, if_pos hn]
    · simp only [natDecAux, if_neg hn]
      rw [ih (n / 10) (digitCh (n % 10) :: acc),
        ih (n / 10) [digitCh (n % 10)], List.append_assoc]
      rfl

theorem decVal_step (a : Nat) (c : Char) (cs : List Char) :
    (c :: cs).foldl (fun a c => 10 * a + (c.toNat - 48)) a
      = cs.foldl (fun a c => 10 * a + (c.toNat - 48)) (10 * a + (c.toNat - 48)) := rfl

theorem natDecAux_decVal (fuel : Nat) :
    ∀ (n : Nat), n < fuel → decVal (natDecAux fuel n []) = n := by
  induction fuel with
  | zero => intro n h; omega
  | succ fuel ih =>
    intro n h
    by_cases hn : n < 10
    · simp [natDecAux, if_pos hn, decVal, digitCh_toNat n hn]
    · simp only [natDecAux, if_neg hn]
      rw [natDecAux_append fuel (n / 10) [digitCh (n % 10)]]
      have hrec : n / 10 < fuel := by
        have := Nat.div_lt_self (by omega : 0 < n) (by omega : 1 < 10)
        omega
      have hv := ih (n / 10) hrec
      unfold decVal at hv ⊢
      rw [List.foldl_append, hv, decVal_step]
      simp [digitCh_toNat (n % 10) (Nat.mod_lt n (by omega))]
      omega

theorem natDec_decVal (n : Nat) : decVal (natDec n) = n :=
  natDecAux_decVal (n + 1) n (Nat.lt_succ_self n)

theorem natDec_inj {m n : Nat} (h : natDec m = natDec n) : m = n := by
  have := natDec_decVal m
  rw [h, natDec_decVal n] at this
  omega

theorem natDecAux_ne_nil (fuel : Nat) :
    ∀ (n : Nat) (acc : List Char), 0 < fuel → natDecAux fuel n acc ≠ [] := by
  induction fuel with
  | zero => intro n acc h; omega
  | succ fuel ih =>
    intro n acc _
    by_cases hn : n < 10
    · simp [natDecAux, if_pos hn]
    · simp only [natDecAux, if_neg hn]
      cases fuel with
      | zero => simp [natDecAux]
      | succ fuel => exact ih (n / 10) _ (Nat.succ_pos fuel)

theorem natDec_ne_nil (n : Nat) : natDec n ≠ [] :=
  natDecAux_ne_nil (n + 1) n [] (Nat.succ_pos n)

theorem jsIntChars_no_comma (i : Int) (c : Char) (hc : c ∈ jsIntChars i) :
    c ≠ ',' := by
  unfold jsIntChars at hc
  intro heq
  subst heq
  by_cases hi : i < 0
  · rw [if_pos hi] at hc
    rcases List.mem_cons.mp hc with h | h
    · cases h
    · have := natDec_mem i.natAbs ',' h
      simp [isDigitCh] at this
  · rw [if_neg hi] at hc
    have := natDec_mem i.toNat ',' hc
    simp [isDigitCh] at this

theorem jsIntChars_inj {i j : Int} (h : jsIntChars i = jsIntChars j) : i = j := by
  unfold jsIntChars at h
  by_cases hi : i < 0 <;> by_cases hj : j < 0
  · rw [if_pos hi, if_pos hj] at h
    simp only [List.cons.injEq, true_and] at h
    have := natDec_inj h
    omega
  · rw [if_pos hi, if_neg hj] at h
    have hne := natDec_ne_nil j.toNat
    cases hd : natDec j.toNat with
    | nil => exact absurd hd hne
    | cons c rest =>
      rw [hd] at h
      have hcmem : c ∈ natDec j.toNat := by rw [hd]; exact List.mem_cons_self c rest
      have := natDec_mem _ _ hcmem
      have hcd : c = '-' := (List.cons.injEq _ _ _ _ ▸ h).1.symm
      rw [hcd] at this
      simp [isDigitCh] at this
  · rw [if_neg hi, if_pos hj] at h
    have hne := natDec_ne_nil i.toNat
    cases hd : natDec i.toNat with
    | nil => exact absurd hd hne
    | cons c rest =>
      rw [hd] at h
      have hcmem : c ∈ natDec i.toNat := by rw [hd]; exact List.mem_cons_self c rest
      have := natDec_mem _ _ hcmem
      have hcd : c = '-' := (List.cons.injEq _ _ _ _ ▸ h).1
      rw [hcd] at this
      simp [isDigitCh] at this
  · rw [if_neg hi, if_neg hj] at h
    have := natDec_inj h
    omega

theorem split_at_comma :
    ∀ (a c : List Char) (b d : List Char),
      (∀ x ∈ a, x ≠ ',') → (∀ x ∈ c, x ≠ ',') →
      a ++ ',' :: b = c ++ ',' :: d → a = c ∧ b = d := by
  intro a
  induction a with
  | nil =>
    intro c b d _ hc h
    cases c with
    | nil => simpa using h
    | cons y c2 =>
      simp only [List.nil_append, List.cons_append, List.cons.injEq] at h
      exact absurd h.1.symm (hc y (List.mem_cons_self y c2))
  | cons x a2 ih =>
    intro c b d ha hc h
    cases c with
    | nil =>
      simp only [List.cons_append, List.nil_append, List.cons.injEq] at h
      exact absurd h.1 (ha x (List.mem_cons_self x a2))
    | cons y c2 =>
      simp only [List.cons_append, List.cons.injEq] at h
      have := ih c2 b d (fun z hz => ha z (List.mem_cons_of_mem x hz))
        (fun z hz => hc z (List.mem_cons_of_mem y hz)) h.2
      exact ⟨by rw [h.1, this.1], this.2⟩

theorem jsIntStr_pair_inj {b1 e1 b2 e2 : Int}
    (h : jsIntStr b1 ++ "," ++ jsIntStr e1 = jsIntStr b2 ++ "," ++ jsIntStr e2) :
    b1 = b2 ∧ e1 = e2 := by
  have hd : jsIntChars b1 ++ ',' :: jsIntChars e1
      = jsIntChars b2 ++ ',' :: jsIntChars e2 := by
    have := congrArg String.data h
    simpa [jsIntStr, String.data_append] using this
  have := split_at_comma (jsIntChars b1) (jsIntChars b2) (jsIntChars e1)
    (jsIntChars e2) (fun x hx => jsIntChars_no_comma b1 x hx)
    (fun x hx => jsIntChars_no_comma b2 x hx) hd
  exact ⟨jsIntChars_inj this.1, jsIntChars_inj this.2⟩

/-- C9: for a range event, `key()` is the canonical "begin,end" string in
epoch milliseconds, and two range events have equal keys exactly when they
cover the same time range; for an indexed event, `key()` is the index
string, and two indexed events have equal keys exactly when they carry the
same index. -/
theorem evKey_canonical :
    (∀ b1 e1 d1 b2 e2 d2,
      evKey (Ev.timerange b1 e1 d1) = jsIntStr b1 ++ "," ++ jsIntStr e1 ∧
      (evKey (Ev.timerange b1 e1 d1) = evKey (Ev.timerange b2 e2 d2) ↔
        b1 = b2 ∧ e1 = e2)) ∧
    (∀ i1 d1 i2 d2,
      evKey (Ev.indexed i1 d1) = i1 ∧
      (evKey (Ev.indexed i1 d1) = evKey (Ev.indexed i2 d2) ↔ i1 = i2)) := by
  constructor
  · intro b1 e1 d1 b2 e2 d2
    refine ⟨rfl, ?_, ?_⟩
    · exact fun h => jsIntStr_pair_inj h
    · rintro ⟨rfl, rfl⟩; rfl
  · intro i1 d1 i2 d2
    exact ⟨rfl, Iff.rfl⟩

/-
Helper lemmas: chronological order and the bisect loop.
-/

theorem isChronological_iff (l : List Int) :
    isChronological l = true ↔ List.Chain' (· ≤ ·) l := by
  induction l with
  | nil => simp [isChronological]
  | cons a tail ih =>
    cases tail with
    | nil => simp [isChronological]
    | cons b rest =>
      rw [isChronological, Bool.and_eq_true, decide_eq_true_eq, List.chain'_cons]
      exact and_congr Iff.rfl ih

theorem chron_mono (l : List Int) (hc : isChronological l = true)
    (i j : Nat) (hi : i < l.length) (hj : j < l.length) (hij : i ≤ j) :
    l.get ⟨i, hi⟩ ≤ l.get ⟨j, hj⟩ := by
  have hp : List.Pairwise (· ≤ ·) l :=
    List.chain'_iff_pairwise.mp ((isChronological_iff l).mp hc)
  rcases Nat.lt_or_ge i j with h | h
  · exact List.pairwise_iff_get.mp hp ⟨i, hi⟩ ⟨j, hj⟩ h
  · have : i = j := by omega
    subst this
    exact le_refl _

theorem bisectLoop_all_lt (tms : Int) :
    ∀ (l : List Int) (i : Nat),
      (∀ (j : Nat) (hj : j < l.length), l.get ⟨j, hj⟩ < tms) →
      bisectLoop tms l i = i + l.length - 1 := by
  intro l
  induction l with
  | nil => intro i _; simp [bisectLoop]
  | cons t rest ih =>
    intro i h
    have ht : t < tms := h 0 (by simp)
    rw [bisectLoop, if_neg (by omega : ¬ tms < t), if_neg (by omega : ¬ t = tms)]
    rw [ih (i + 1) (fun j hj => by
      have := h (j + 1) (by simpa using Nat.succ_lt_succ hj)
      simpa using this)]
    simp only [List.length_cons]
    omega

theorem bisectLoop_stop (tms : Int) :
    ∀ (k : Nat) (l : List Int) (i : Nat) (hk : k < l.length),
      (∀ (j : Nat) (hj : j < l.length), j < k → l.get ⟨j, hj⟩ < tms) →
      tms ≤ l.get ⟨k, hk⟩ →
      bisectLoop tms l i = if l.get ⟨k, hk⟩ = tms then i + k else i + k - 1 := by
  intro k
  induction k with
  | zero =>
    intro l i hk hpre hstop
    cases l with
    | nil => simp at hk
    | cons t rest =>
      have hget : (t :: rest).get ⟨0, hk⟩ = t := rfl
      rw [hget] at hstop ⊢
      rw [bisectLoop]
      by_cases he : t = tms
      · rw [if_neg (by omega : ¬ tms < t), if_pos he, if_pos he]
        omega
      · have hlt : tms < t := lt_of_le_of_ne hstop (Ne.symm he)
        rw [if_pos hlt, if_neg he]
        omega
  | succ k ih =>
    intro l i hk hpre hstop
    cases l with
    | nil => simp at hk
    | cons t rest =>
      have hlen : 0 < (t :: rest).length := by simp
      have ht : t < tms := hpre 0 hlen (Nat.succ_pos k)
      rw [bisectLoop, if_neg (by omega : ¬ tms < t), if_neg (by omega : ¬ t = tms)]
      have hk' : k < rest.length := by simpa using hk
      have hstop' : tms ≤ rest.get ⟨k, hk'⟩ := by
        have : (t :: rest).get ⟨k + 1, hk⟩ = rest.get ⟨k, hk'⟩ := rfl
        rw [this] at hstop
        exact hstop
      rw [ih rest (i + 1) hk'
        (fun j hj hjk => by
          have := hpre (j + 1) (by simpa using Nat.succ_lt_succ hj)
            (Nat.succ_lt_succ hjk)
          simpa using this)
        hstop']
      have hgs : (t :: rest).get ⟨k + 1, hk⟩ = rest.get ⟨k, hk'⟩ := rfl
      rw [hgs]
      split <;> omega

/-- C3 (amended): `bisect` returns `undefined` on an empty series, and
`TimeSeries.bisect` is the list-level bisection of the events' timestamps.
On a non-empty chronologically ordered series, `bisect` with the default
start hint 0 returns `some r` with `r` in range, where `r` is the
smallest index whose timestamp equals `t` when an exact match exists
(with duplicate timestamps the first match is returned, not the greatest
matching index); with no exact match, `r` is the clamped 0 when `t`
precedes all events, and otherwise the greatest index whose timestamp is
at most `t` (in particular the last index when `t` follows all
events). -/
theorem bisect_resolves (ts : List Int) (tms : Int) (hne : 0 < ts.length)
    (hc : isChronological ts = true) :
    bisectTs [] tms 0 = none ∧
    (∀ s : Series, Series.bisect s tms 0
      = bisectTs (s.events.map Ev.tsOf) tms 0) ∧
    ∃ r, bisectTs ts tms 0 = some r ∧ r < ts.length ∧
      ((∃ (j : Nat) (hj : j < ts.length), ts.get ⟨j, hj⟩ = tms) →
        ∃ (hr : r < ts.length), ts.get ⟨r, hr⟩ = tms ∧
          ∀ (j : Nat) (hj : j < ts.length), ts.get ⟨j, hj⟩ = tms → r ≤ j) ∧
      ((∀ (j : Nat) (hj : j < ts.length), ts.get ⟨j, hj⟩ ≠ tms) →
        (tms < ts.get ⟨0, hne⟩ → r = 0) ∧
        (ts.get ⟨0, hne⟩ ≤ tms →
          ∃ (hr : r < ts.length), ts.get ⟨r, hr⟩ ≤ tms ∧
            ∀ (j : Nat) (hj : j < ts.length), r < j → tms < ts.get ⟨j, hj⟩)) := by
  refine ⟨rfl, fun s => rfl, ?_⟩
  have hbis : bisectTs ts tms 0 = some (bisectLoop tms ts 0) := by
    unfold bisectTs
    rw [if_neg (by omega), List.drop_zero]
  by_cases hex : ∀ (j : Nat) (hj : j < ts.length), ts.get ⟨j, hj⟩ < tms
  · -- every timestamp is strictly below the probe: the loop falls off the
    -- end and returns the last index
    have hloop := bisectLoop_all_lt tms ts 0 hex
    refine ⟨ts.length - 1, by rw [hbis, hloop]; simp, by omega, ?_, ?_⟩
    · rintro ⟨j, hj, hval⟩
      exact absurd (hex j hj) (by rw [hval]; exact lt_irrefl tms)
    · intro _
      refine ⟨fun h0 => absurd (hex 0 hne) (by omega), fun _ => ?_⟩
      refine ⟨by omega, le_of_lt (hex (ts.length - 1) (by omega)), ?_⟩
      intro j hj hrj
      omega
  · -- there is a first index k with tms ≤ ts[k]
    push_neg at hex
    have hP : ∃ j, j < ts.length ∧ tms ≤ ts.getD j 0 := by
      obtain ⟨j, hj, hle⟩ := hex
      exact ⟨j, hj, by rw [List.getD_eq_getElem ts 0 hj]; exact hle⟩
    haveI : DecidablePred (fun j => j < ts.length ∧ tms ≤ ts.getD j 0) :=
      Classical.decPred _
    obtain ⟨k, hkspec, hkmin⟩ :
        ∃ k, (k < ts.length ∧ tms ≤ ts.getD k 0) ∧
          ∀ j, j < k → ¬ (j < ts.length ∧ tms ≤ ts.getD j 0) :=
      ⟨Nat.find hP, Nat.find_spec hP, fun j hj => Nat.find_min hP hj⟩
    have hklt : k < ts.length := hkspec.1
    have hkle : tms ≤ ts.get ⟨k, hklt⟩ := by
      have := hkspec.2
      rwa [List.getD_eq_getElem ts 0 hklt] at this
    have hmin : ∀ (j : Nat) (hj : j < ts.length), j < k → ts.get ⟨j, hj⟩ < tms := by
      intro j hj hjk
      have := hkmin j hjk
      simp only [not_and, not_le] at this
      have := this hj
      rwa [List.getD_eq_getElem ts 0 hj] at this
    have hloop := bisectLoop_stop tms k ts 0 hklt hmin hkle
    by_cases hm : ts.get ⟨k, hklt⟩ = tms
    · -- exact match at the first index with tms ≤ ts[k]
      rw [if_pos hm] at hloop
      refine ⟨k, by rw [hbis, hloop]; simp, hklt, ?_, ?_⟩
      · intro _
        refine ⟨hklt, hm, ?_⟩
        intro j hj hval
        by_contra hjk
        exact absurd hval (ne_of_lt (hmin j hj (by omega)))
      · intro hno
        exact absurd hm (hno k hklt)
    · -- no exact match anywhere
      rw [if_neg hm] at hloop
      have hklt2 : tms < ts.get ⟨k, hklt⟩ := lt_of_le_of_ne hkle (fun h => hm h.symm)
      refine ⟨k - 1, by rw [hbis, hloop]; simp, by omega, ?_, ?_⟩
      · rintro ⟨j, hj, hval⟩
        rcases Nat.lt_or_ge j k with hjk | hjk
        · exact absurd hval (ne_of_lt (hmin j hj hjk))
        · have := chron_mono ts hc k j hklt hj hjk
          exact absurd hval (by omega)
      · intro _
        constructor
        · intro h0
          have hk0 : k = 0 := by
            by_contra hne0
            have := hmin 0 hne (by omega)
            omega
          omega
        · intro h0
          have hk1 : 1 ≤ k := by
            by_contra hk0
            have hkz : k = 0 := by omega
            have hfin : (⟨k, hklt⟩ : Fin ts.length) = ⟨0, hne⟩ := Fin.ext hkz
            rw [hfin] at hklt2
            omega
          refine ⟨by omega, le_of_lt (hmin (k - 1) (by omega) (by omega)), ?_⟩
          intro j hj hrj
          have hjk : k ≤ j := by omega
          have := chron_mono ts hc k j hklt hj hjk
          omega

/-- C3 counterexample: with the duplicate timestamps [100, 100] (a
chronological, non-decreasing series), `bisect(100)` returns index 0,
although index 1 also has timestamp ≤ 100, so the result is not the
greatest index with timestamp ≤ t as the claim states. -/
theorem bisect_duplicate_counterexample :
    isChronological [(100 : Int), 100] = true ∧
    bisectTs [(100 : Int), 100] 100 0 = some 0 ∧
    bisectTs [(100 : Int), 100] 100 0 ≠ some 1 ∧
    [(100 : Int), 100].get ⟨1, by decide⟩ ≤ 100 := by decide

/-- Witness: `bisect_resolves` applied to the spec's example series
[100, 200, 300] at t = 150. -/
theorem bisect_resolves_witness :
    bisectTs [] 150 0 = none ∧
    Series.bisect
        (Series.mk "w" true none
          [Ev.time 100 [], Ev.time 200 [], Ev.time 300 []]) 150 0
      = bisectTs
          ((Series.mk "w" true none
            [Ev.time 100 [], Ev.time 200 [], Ev.time 300 []]).events.map
              Ev.tsOf) 150 0 ∧
    ∃ r, bisectTs [(100 : Int), 200, 300] 150 0 = some r ∧
      r < [(100 : Int), 200, 300].length ∧
      ((∃ (j : Nat) (hj : j < [(100 : Int), 200, 300].length),
          [(100 : Int), 200, 300].get ⟨j, hj⟩ = 150) →
        ∃ (hr : r < [(100 : Int), 200, 300].length),
          [(100 : Int), 200, 300].get ⟨r, hr⟩ = 150 ∧
          ∀ (j : Nat) (hj : j < [(100 : Int), 200, 300].length),
            [(100 : Int), 200, 300].get ⟨j, hj⟩ = 150 → r ≤ j) ∧
      ((∀ (j : Nat) (hj : j < [(100 : Int), 200, 300].length),
          [(100 : Int), 200, 300].get ⟨j, hj⟩ ≠ 150) →
        (150 < [(100 : Int), 200, 300].get ⟨0, by decide⟩ → r = 0) ∧
        ([(100 : Int), 200, 300].get ⟨0, by decide⟩ ≤ 150 →
          ∃ (hr : r < [(100 : Int), 200, 300].length),
            [(100 : Int), 200, 300].get ⟨r, hr⟩ ≤ 150 ∧
            ∀ (j : Nat) (hj : j < [(100 : Int), 200, 300].length),
              r < j → 150 < [(100 : Int), 200, 300].get ⟨j, hj⟩)) :=
  ⟨(bisect_resolves [100, 200, 300] 150 (by decide) (by decide)).1,
   (bisect_resolves [100, 200, 300] 150 (by decide) (by decide)).2.1
     (Series.mk "w" true none
       [Ev.time 100 [], Ev.time 200 [], Ev.time 300 []]),
   (bisect_resolves [100, 200, 300] 150 (by decide) (by decide)).2.2⟩

/-
Helper lemmas: the bucket-size grammar.
-/

theorem unit_not_digit (c : Char) (h : isUnitCh c = true) : isDigitCh c = false := by
  unfold isUnitCh at h
  simp only [Bool.or_eq_true, decide_eq_true_eq] at h
  rcases h with ((h | h) | h) | h <;> subst h <;> decide

theorem unitLength_pos (c : Char) : 0 < unitLength c := by
  unfold unitLength
  repeat' split
  all_goals omega

theorem scanSizeRe_grammar :
    ∀ (ds : List Char) (acc : List Char) (u : Char),
      (∀ c ∈ ds, isDigitCh c = true) → isUnitCh u = true → acc ++ ds ≠ [] →
      scanSizeRe acc (ds ++ [u]) = some (acc ++ ds, u) := by
  intro ds
  induction ds with
  | nil =>
    intro acc u _ hu hne
    rw [List.append_nil] at hne
    rw [List.nil_append, List.append_nil, scanSizeRe, unit_not_digit u hu]
    simp [hu, hne]
  | cons d ds ih =>
    intro acc u hdig hu hne
    rw [List.cons_append, scanSizeRe, if_pos (hdig d (List.mem_cons_self d ds))]
    rw [ih (acc ++ [d]) u (fun c hc => hdig c (List.mem_cons_of_mem d hc)) hu
      (by simp)]
    simp

theorem getLengthFromSize_grammar (ds : List Char) (u : Char)
    (hne : ds ≠ []) (hdig : ∀ c ∈ ds, isDigitCh c = true)
    (hu : isUnitCh u = true) :
    getLengthFromSize (String.mk (ds ++ [u]))
      = some (decVal ds * unitLength u * 1000) := by
  unfold getLengthFromSize
  rw [show (String.mk (ds ++ [u])).data = ds ++ [u] from rfl]
  rw [scanSizeRe_grammar ds [] u hdig hu (by simpa using hne)]
  simp

/-- C5 counterexample: "xyz" does not match the grammar, yet computing its
bucket index raises no error at all — `getLengthFromSize` silently returns
`undefined` and the bucket key is the string "xyz-NaN"; moreover "5mx"
does not match the anchored grammar `/^[0-9]+[smhd]$/` either, yet the
unanchored regex accepts it and yields a well-formed 5-minute bucket key,
again with no error. -/
theorem sizeSpec_no_error_counterexample :
    getLengthFromSize "xyz" = none ∧
    bucketIndex "xyz" 0 = "xyz-NaN" ∧
    getLengthFromSize "5mx" = some 300000 ∧
    bucketIndex "5mx" 0 = "5mx-0" := by decide

/-- C5 (amended): no `InvalidSizeSpec` error exists — bucket-index
computation is total.  When the (unanchored) regex `([0-9]+)([smhd])`
finds no match in the specifier, `getLengthFromSize` returns `undefined`
and `bucketIndex` returns "<spec>-NaN" without raising; a string of the
anchored grammar `<digits><unit>` parses to `count * multiplier * 1000`
milliseconds. -/
theorem getLengthFromSize_total :
    (∀ (size : String) (dateMs : Int), getLengthFromSize size = none →
      bucketIndex size dateMs = size ++ "-NaN") ∧
    (∀ (ds : List Char) (u : Char), ds ≠ [] →
      (∀ c ∈ ds, isDigitCh c = true) → isUnitCh u = true →
      getLengthFromSize (String.mk (ds ++ [u]))
        = some (decVal ds * unitLength u * 1000)) := by
  constructor
  · intro size dateMs h
    unfold bucketIndex
    rw [h]
    rw [show getBucketPosFromDate dateMs none = none from rfl]
    rw [show posStr none = "NaN" from rfl, String.append_assoc]
    rfl
  · exact fun ds u h1 h2 h3 => getLengthFromSize_grammar ds u h1 h2 h3

/-- Witness: `getLengthFromSize_total` applied to "zz" (no match, NaN key,
no error) and to the well-formed "30s". -/
theorem getLengthFromSize_total_witness :
    bucketIndex "zz" 5 = "zz" ++ "-NaN" ∧
    getLengthFromSize (String.mk (['3', '0'] ++ ['s']))
      = some (decVal ['3', '0'] * unitLength 's' * 1000) :=
  ⟨getLengthFromSize_total.1 "zz" 5 (by decide),
   getLengthFromSize_total.2 ['3', '0'] 's' (by decide) (by decide) (by decide)⟩

theorem jsQuot_nonneg_fdiv (a : Int) (b : Nat) (ha : 0 ≤ a) :
    jsQuot a b = Int.fdiv a (Int.ofNat b) := by
  cases a with
  | ofNat m =>
    unfold jsQuot
    rw [if_pos ha]
    cases m with
    | zero => rw [show (Int.ofNat 0).toNat = 0 from rfl, Nat.zero_div]; rfl
    | succ k => rfl
  | negSucc m =>
    have := Int.negSucc_lt_zero m
    omega

/-- C6 (amended): for every size specifier of the grammar with positive
count and every instant (as UTC epoch ms, so timezone-independent),
`bucketIndex` returns "<sizeSpec>-<pos>" where pos is the quotient
epoch_ms / length_ms truncated TOWARD ZERO (JS `parseInt`), not floored;
truncation agrees with floor for instants at or after the epoch, so the
claim's floor formula holds there but fails for pre-epoch instants off a
boundary. -/
theorem bucketIndex_truncated (ds : List Char) (u : Char) (dateMs : Int)
    (hne : ds ≠ []) (hdig : ∀ c ∈ ds, isDigitCh c = true)
    (hu : isUnitCh u = true) (hpos : 0 < decVal ds) :
    bucketIndex (String.mk (ds ++ [u])) dateMs
      = String.mk (ds ++ [u]) ++ "-"
        ++ jsIntStr (jsQuot dateMs (decVal ds * unitLength u * 1000)) ∧
    (0 ≤ dateMs →
      jsQuot dateMs (decVal ds * unitLength u * 1000)
        = Int.fdiv dateMs (Int.ofNat (decVal ds * unitLength u * 1000))) := by
  have hL : 0 < decVal ds * unitLength u * 1000 :=
    Nat.mul_pos (Nat.mul_pos hpos (unitLength_pos u)) (by omega)
  constructor
  · unfold bucketIndex
    rw [getLengthFromSize_grammar ds u hne hdig hu]
    obtain ⟨L, hLs⟩ : ∃ L, decVal ds * unitLength u * 1000 = L + 1 :=
      ⟨decVal ds * unitLength u * 1000 - 1, by omega⟩
    rw [hLs]
    rfl
  · intro h
    exact jsQuot_nonneg_fdiv dateMs _ h

/-- C6 counterexample: 1.5 seconds before the epoch in one-second buckets,
the code yields position -1 (truncation), while the claimed
floor(-1500 / 1000) is -2, so the claimed key "1s--2" is not returned. -/
theorem bucketIndex_floor_counterexample :
    bucketIndex "1s" (-1500) = "1s--1" ∧
    Int.fdiv (-1500) 1000 = -2 ∧
    bucketIndex "1s" (-1500) ≠ "1s-" ++ jsIntStr (Int.fdiv (-1500) 1000) := by
  decide

/-- Witness: `bucketIndex_truncated` applied to "30s" at 90000 ms. -/
theorem bucketIndex_truncated_witness :
    bucketIndex (String.mk (['3', '0'] ++ ['s'])) 90000
      = String.mk (['3', '0'] ++ ['s']) ++ "-"
        ++ jsIntStr (jsQuot 90000 (decVal ['3', '0'] * unitLength 's' * 1000)) ∧
    (0 ≤ (90000 : Int) →
      jsQuot 90000 (decVal ['3', '0'] * unitLength 's' * 1000)
        = Int.fdiv 90000 (Int.ofNat (decVal ['3', '0'] * unitLength 's' * 1000))) :=
  bucketIndex_truncated ['3', '0'] 's' 90000 (by decide) (by decide) (by decide)
    (by decide)

/-
Claim theorems: construction invariant, buffer decode, rollup sugar,
cross-series reduce, empty toJSON.
-/

/-- C1: every construction path of a TimeSeries establishes the
chronological-order invariant at every constructor exit point.  The
event-list, raw-Collection and tabular branches, and `setCollection`
without the skip flag, check `isChronological` and throw otherwise; the
binary-buffer branch never exits with a series at all — its schema is
built with no event key, so `event(undefined)` throws inside the try for
every buffer and the destructuring TypeError ends every call — hence the
invariant holds (vacuously) at its exit point too. -/
theorem construction_chronological :
    (∀ (events : List Ev) (meta : MetaIn) (s : Series),
      fromEvents events meta = .ok s → evChron s.events = true) ∧
    (∀ (col : List Ev) (meta : MetaIn) (s : Series),
      fromCollection col meta = .ok s → evChron s.events = true) ∧
    (∀ (tab : Tabular) (s : Series),
      fromTabular tab = .ok s → evChron s.events = true) ∧
    (∀ (d : Option DecodedBuffer), fromBuffer d = .error JsErr.typeError) ∧
    (∀ (d : Option DecodedBuffer) (s : Series),
      fromBuffer d = .ok s → evChron s.events = true) ∧
    (∀ (s0 : Series) (col : List Ev) (s : Series),
      setCollection s0 col false = .ok s → evChron s.events = true) := by
  refine ⟨?_, ?_, ?_, fun d => rfl, ?_, ?_⟩
  · intro events meta s h
    unfold fromEvents at h
    split at h
    · cases h
      assumption
    · cases h
  · intro col meta s h
    unfold fromCollection at h
    split at h
    · cases h
      assumption
    · cases h
  · intro tab s h
    unfold fromTabular at h
    split at h
    · cases h
    · split at h
      · cases h
      · split at h
        · cases h
        · split at h
          · cases h
            assumption
          · cases h
  · intro d s h
    rw [show fromBuffer d = Except.error JsErr.typeError from rfl] at h
    exact Except.noConfusion h
  · intro s0 col s h
    unfold setCollection at h
    split at h
    · cases h
    · cases h
      next hcond =>
      simp only [Bool.not_false, Bool.true_and, Bool.not_eq_true',
        Bool.not_eq_false] at hcond
      exact hcond

/-- Witness: the event-list path of `construction_chronological` at a
concrete chronological two-event series. -/
theorem construction_chronological_witness :
    evChron (buildMeta (MetaIn.mk (some "w") none none)
      [Ev.time 1000 [], Ev.time 2000 []]).events = true :=
  construction_chronological.1 [Ev.time 1000 [], Ev.time 2000 []]
    (MetaIn.mk (some "w") none none) _ rfl

/-- C2 counterexample: for a buffer whose payload does not decode, the
constructor does raise an error past the API boundary — the caught
failure inside the try leaves `obj` undefined and destructuring it throws
a TypeError, refuting the claim that the call returns without raising. -/
theorem bufferDecodeFailure_counterexample :
    fromBuffer none = .error JsErr.typeError := rfl

/-- C2 (amended): the failure inside the try (the schema is built with a
missing event key, so decode is never even reached) is caught and
reported, but the constructor then destructures the undefined result, so
a TypeError does propagate past the API boundary: the call never returns
normally and no series — usable or not — results for that buffer. -/
theorem bufferDecodeFailure_raises :
    fromBuffer none = .error JsErr.typeError ∧
    ∀ s : Series, fromBuffer none ≠ .ok s := by
  refine ⟨rfl, ?_⟩
  intro s h
  rw [show fromBuffer none = Except.error JsErr.typeError from rfl] at h
  exact Except.noConfusion h

/-- C4: `hourlyRollup` is NOT syntactic sugar for `fixedWindowRollup` with
a one-hour window: it passes "1h", the aggregation and the flag as three
positional arguments to `fixedWindowRollup`, whose single options
parameter then is the string "1h"; destructuring that string yields no
`windowSize`, so every `hourlyRollup` call with a valid aggregation throws
"windowSize must be supplied", while the claimed
`fixedWindowRollup(\x7bwindowSize: "1h", ...\x7d)` call succeeds and
returns the rolled-up series. -/
theorem hourlyRollup_always_throws (s : Series) (agg : AggSpec) (tte : Bool) :
    hourlyRollup s (some agg) tte = .error JsErr.missingWindowSize ∧
    fixedWindowRollup s
        { windowSize := some "1h", aggregation := some agg, toTimeEvents := tte }
      = .ok { s with events := pipelineRollup s "1h" agg tte } :=
  ⟨rfl, rfl⟩

theorem evChron_sortByTime (l : List Ev) : evChron (sortByTime l) = true := by
  unfold evChron sortByTime
  haveI instTot : IsTotal Ev (fun a b => a.tsOf ≤ b.tsOf) :=
    ⟨fun a b => le_total _ _⟩
  haveI instTrans : IsTrans Ev (fun a b => a.tsOf ≤ b.tsOf) :=
    ⟨fun a b c hab hbc => le_trans hab hbc⟩
  have hs := List.sorted_insertionSort (fun a b : Ev => a.tsOf ≤ b.tsOf) l
  have hchain := List.Pairwise.chain' hs
  have hmap : List.Chain' (· ≤ ·)
      ((List.insertionSort (fun a b : Ev => a.tsOf ≤ b.tsOf) l).map Ev.tsOf) :=
    (List.chain'_map Ev.tsOf).mpr hchain
  exact (isChronological_iff _).mpr hmap

/-- C8 counterexample: an EMPTY series list passes the
`!seriesList || !_.isArray(seriesList)` check, so no EmptySeriesList-style
error is raised — the reduce succeeds and yields an empty series. -/
theorem emptySeriesList_counterexample :
    timeSeriesListEventReduce
      { seriesList := some [], reducer := some (fun es _ => es),
        fieldSpec := none, meta := { name := none, utc := none, index := none } }
      = .ok { name := "", utc := true, indexMeta := none, events := [] } := rfl

/-- C8 (amended): the cross-series event reduce throws only when the
series list is missing (undefined / not an array) — an empty list is
accepted and produces an (empty) series — and throws when the reducer is
missing; with both present the call succeeds, the combined events are
re-sorted to chronological order when they are not already ordered, and
the installed collection is always chronological. -/
theorem timeSeriesListEventReduce_checks :
    (∀ (red : Option (List Ev → Option (List String) → List Ev))
        (fs : Option (List String)) (meta : MetaIn),
      timeSeriesListEventReduce
        { seriesList := none, reducer := red, fieldSpec := fs, meta := meta }
        = .error JsErr.seriesListRequired) ∧
    (∀ (sl : List Series) (fs : Option (List String)) (meta : MetaIn),
      timeSeriesListEventReduce
        { seriesList := some sl, reducer := none, fieldSpec := fs, meta := meta }
        = .error JsErr.reducerRequired) ∧
    (∀ (sl : List Series) (red : List Ev → Option (List String) → List Ev)
        (fs : Option (List String)) (meta : MetaIn),
      ∃ st : Series,
        timeSeriesListEventReduce
          { seriesList := some sl, reducer := some red, fieldSpec := fs,
            meta := meta }
          = .ok st ∧
        evChron st.events = true ∧
        st.events =
          (if evChron (red (sl.foldl (fun acc t => acc ++ t.events) []) fs)
           then red (sl.foldl (fun acc t => acc ++ t.events) []) fs
           else sortByTime (red (sl.foldl (fun acc t => acc ++ t.events) []) fs))) := by
  refine ⟨fun red fs meta => rfl, fun sl fs meta => rfl, ?_⟩
  intro sl red fs meta
  have hunf : timeSeriesListEventReduce
      { seriesList := some sl, reducer := some red, fieldSpec := fs, meta := meta }
      = fromCollection
          (if evChron (red (sl.foldl (fun acc t => acc ++ t.events) []) fs)
           then red (sl.foldl (fun acc t => acc ++ t.events) []) fs
           else sortByTime (red (sl.foldl (fun acc t => acc ++ t.events) []) fs))
          meta := rfl
  rw [hunf]
  by_cases hch : evChron (red (sl.foldl (fun acc t => acc ++ t.events) []) fs) = true
  · rw [if_pos hch]
    refine ⟨buildMeta meta (red (sl.foldl (fun acc t => acc ++ t.events) []) fs),
      ?_, ?_, ?_⟩
    · unfold fromCollection
      rw [if_pos hch]
    · simpa [buildMeta] using hch
    · rfl
  · rw [if_neg hch]
    have hs := evChron_sortByTime (red (sl.foldl (fun acc t => acc ++ t.events) []) fs)
    refine ⟨buildMeta meta
      (sortByTime (red (sl.foldl (fun acc t => acc ++ t.events) []) fs)),
      ?_, ?_, ?_⟩
    · unfold fromCollection
      rw [if_pos hs]
    · simpa [buildMeta] using hs
    · rfl

/-- C10: `toJSON` on a series with no events returns `undefined` (no
tabular object with empty columns/points), since `atFirst()` yields no
event; the JSON round trip therefore does not apply to empty series. -/
theorem toJSON_empty_undefined (s : Series) (h : s.events = []) :
    toJSON s = none := by
  unfold toJSON atFirst
  rw [h]
  rfl

/-- Witness: `toJSON_empty_undefined` at a concrete empty series. -/
theorem toJSON_empty_undefined_witness :
    toJSON { name := "e", utc := true, indexMeta := none, events := [] } = none :=
  toJSON_empty_undefined
    { name := "e", utc := true, indexMeta := none, events := [] } rfl

/-
Helper lemmas: the JSON tabular round trip.
-/

theorem addKeys_all_present (d : EvData) :
    ∀ (acc : List String), (∀ kv ∈ d, kv.1 ∈ acc) → addKeys acc d = acc := by
  induction d with
  | nil => intro acc _; rfl
  | cons kv rest ih =>
    intro acc h
    unfold addKeys
    rw [List.foldl_cons, if_pos (by simpa using h kv (List.mem_cons_self kv rest))]
    exact ih acc (fun kv2 h2 => h kv2 (List.mem_cons_of_mem kv h2))

theorem addKeys_fresh (d : EvData) :
    ∀ (acc : List String), (d.map Prod.fst).Nodup →
      (∀ kv ∈ d, kv.1 ∉ acc) →
      addKeys acc d = acc ++ d.map Prod.fst := by
  induction d with
  | nil => intro acc _ _; simp [addKeys]
  | cons kv rest ih =>
    intro acc hnd h
    unfold addKeys
    rw [List.foldl_cons,
      if_neg (by simpa using h kv (List.mem_cons_self kv rest))]
    simp only [List.map_cons, List.nodup_cons] at hnd
    have h2 : ∀ kv2 ∈ rest, kv2.1 ∉ acc ++ [kv.1] := by
      intro kv2 hm2
      have hk2 : kv2.1 ∈ rest.map Prod.fst := List.mem_map_of_mem Prod.fst hm2
      have hne : kv2.1 ≠ kv.1 := fun he => hnd.1 (he ▸ hk2)
      simp only [List.mem_append, List.mem_singleton]
      rintro (hin | hin)
      · exact h kv2 (List.mem_cons_of_mem kv hm2) hin
      · exact hne hin
    have := ih (acc ++ [kv.1]) hnd.2 h2
    rw [show addKeys (acc ++ [kv.1]) rest
        = rest.foldl (fun a kv => if a.contains kv.1 then a else a ++ [kv.1])
            (acc ++ [kv.1]) from rfl] at this
    rw [this]
    simp

theorem columns_fold_stable (cs : List String) :
    ∀ (evs : List Ev), (∀ e ∈ evs, e.data.map Prod.fst = cs) →
      evs.foldl (fun acc e => addKeys acc e.data) cs = cs := by
  intro evs
  induction evs with
  | nil => intro _; rfl
  | cons e rest ih =>
    intro h
    rw [List.foldl_cons, addKeys_all_present e.data cs (by
      intro kv hkv
      have : kv.1 ∈ e.data.map Prod.fst := List.mem_map_of_mem Prod.fst hkv
      rwa [h e (List.mem_cons_self e rest)] at this)]
    exact ih (fun e2 h2 => h e2 (List.mem_cons_of_mem e h2))

theorem columns_homogeneous (cs : List String) (hnd : cs.Nodup)
    (evs : List Ev) (hne : evs ≠ [])
    (hcols : ∀ e ∈ evs, e.data.map Prod.fst = cs) :
    Series.columns evs = cs := by
  cases evs with
  | nil => exact absurd rfl hne
  | cons e rest =>
    unfold Series.columns
    rw [List.foldl_cons]
    have hfst := hcols e (List.mem_cons_self e rest)
    have h1 : addKeys [] e.data = cs := by
      rw [addKeys_fresh e.data [] (by rw [hfst]; exact hnd)
        (fun kv _ => List.not_mem_nil kv.1), List.nil_append, hfst]
    rw [h1]
    exact columns_fold_stable cs rest
      (fun e2 h2 => hcols e2 (List.mem_cons_of_mem e h2))

theorem objInsert_fresh (k : String) (v : JsVal) :
    ∀ (d : EvData), (∀ kv ∈ d, kv.1 ≠ k) → objInsert d k v = d ++ [(k, v)] := by
  intro d
  induction d with
  | nil => intro _; rfl
  | cons kv rest ih =>
    obtain ⟨k0, v0⟩ := kv
    intro h
    unfold objInsert
    rw [if_neg (h (k0, v0) (List.mem_cons_self (k0, v0) rest))]
    rw [ih (fun kv2 h2 => h kv2 (List.mem_cons_of_mem (k0, v0) h2))]
    rfl

theorem zipPad_self : ∀ (d : EvData), zipPad (d.map Prod.fst) (d.map Prod.snd) = d := by
  intro d
  induction d with
  | nil => rfl
  | cons kv rest ih =>
    obtain ⟨k, v⟩ := kv
    simp only [List.map_cons, zipPad, ih]

theorem foldl_objInsert_fresh :
    ∀ (d : EvData) (acc : EvData), (d.map Prod.fst).Nodup →
      (∀ kv ∈ d, ∀ kv2 ∈ acc, kv2.1 ≠ kv.1) →
      d.foldl (fun a kv => objInsert a kv.1 kv.2) acc = acc ++ d := by
  intro d
  induction d with
  | nil => intro acc _ _; simp
  | cons kv rest ih =>
    intro acc hnd hdis
    simp only [List.map_cons, List.nodup_cons] at hnd
    rw [List.foldl_cons,
      objInsert_fresh kv.1 kv.2 acc
        (fun kv2 h2 => hdis kv (List.mem_cons_self kv rest) kv2 h2)]
    have hdis2 : ∀ kv3 ∈ rest, ∀ kv2 ∈ acc ++ [(kv.1, kv.2)], kv2.1 ≠ kv3.1 := by
      intro kv3 h3 kv2 h2
      rcases List.mem_append.mp h2 with h2 | h2
      · exact hdis kv3 (List.mem_cons_of_mem kv h3) kv2 h2
      · have : kv2 = (kv.1, kv.2) := List.mem_singleton.mp h2
        rw [this]
        intro he
        exact hnd.1 (he ▸ List.mem_map_of_mem Prod.fst h3)
    rw [ih (acc ++ [(kv.1, kv.2)]) hnd.2 hdis2]
    simp

theorem jsObject_roundtrip (d : EvData) (hnd : (d.map Prod.fst).Nodup) :
    jsObject (d.map Prod.fst) (d.map Prod.snd) = d := by
  unfold jsObject
  rw [zipPad_self]
  have := foldl_objInsert_fresh d [] hnd (fun kv _ kv2 h2 => absurd h2 (List.not_mem_nil kv2))
  simpa using this

theorem lookup_self :
    ∀ (d : EvData), (d.map Prod.fst).Nodup →
      ∀ kv ∈ d, d.lookup kv.1 = some kv.2 := by
  intro d
  induction d with
  | nil => intro _ kv h; cases h
  | cons kv0 rest ih =>
    obtain ⟨k0, v0⟩ := kv0
    intro hnd kv h
    simp only [List.map_cons, List.nodup_cons] at hnd
    rcases List.mem_cons.mp h with h | h
    · subst h
      simp [List.lookup]
    · have hk : kv.1 ∈ rest.map Prod.fst := List.mem_map_of_mem Prod.fst h
      have hne : k0 ≠ kv.1 := fun he => hnd.1 (he ▸ hk)
      have hbeq : (kv.1 == k0) = false :=
        beq_eq_false_iff_ne.mpr (fun he => hne he.symm)
      rw [List.lookup, hbeq]
      exact ih hnd.2 kv h

theorem dataEq_refl (d : EvData) (hnd : (d.map Prod.fst).Nodup) :
    dataEq d d = true := by
  unfold dataEq
  rw [Bool.and_self, List.all_eq_true]
  intro kv h
  simp [lookup_self d hnd kv h]

theorem evIs_refl (e : Ev) (hnd : (e.data.map Prod.fst).Nodup) :
    evIs e e = true := by
  cases e with
  | time t d =>
    simp only [evIs, beq_self_eq_true, Bool.true_and]
    exact dataEq_refl d hnd
  | timerange b en d =>
    simp only [evIs, beq_self_eq_true, Bool.true_and]
    exact dataEq_refl d hnd
  | indexed idx d =>
    simp only [evIs, beq_self_eq_true, Bool.true_and]
    exact dataEq_refl d hnd

theorem zip_self_mem :
    ∀ (l : List Ev) (p : Ev × Ev), p ∈ l.zip l → p.1 = p.2 ∧ p.1 ∈ l := by
  intro l
  induction l with
  | nil => intro p h; cases h
  | cons e rest ih =>
    intro p h
    rw [List.zip_cons_cons] at h
    rcases List.mem_cons.mp h with h | h
    · rw [h]
      exact ⟨rfl, List.mem_cons_self e rest⟩
    · obtain ⟨h1, h2⟩ := ih p h
      exact ⟨h1, List.mem_cons_of_mem e h2⟩

theorem collectionIs_refl (l : List Ev)
    (hnd : ∀ e ∈ l, (e.data.map Prod.fst).Nodup) :
    collectionIs l l = true := by
  unfold collectionIs
  rw [Bool.and_eq_true]
  refine ⟨by simp, ?_⟩
  rw [List.all_eq_true]
  intro p hp
  obtain ⟨h1, h2⟩ := zip_self_mem l p hp
  rw [← h1]
  exact evIs_refl p.1 (hnd p.1 h2)

theorem seriesIs_refl (s : Series)
    (hnd : ∀ e ∈ s.events, (e.data.map Prod.fst).Nodup) :
    seriesIs s s = true := by
  unfold seriesIs
  simp [collectionIs_refl s.events hnd]

theorem eventOf_variantStr (e : Ev) :
    eventOf (variantStr e) = .ok (variantOfEv e) := by
  cases e <;> rfl

theorem mkEvent_toPoint (e : Ev) (hnd : (e.data.map Prod.fst).Nodup) :
    mkEvent (variantOfEv e) (Ev.toPoint e).1
      (jsObject (e.data.map Prod.fst) (Ev.toPoint e).2) = .ok e := by
  cases e with
  | time t d =>
    show mkEvent .time (.knum t) (jsObject (d.map Prod.fst) (d.map Prod.snd))
      = .ok (.time t d)
    rw [jsObject_roundtrip d hnd]
    rfl
  | timerange b en d =>
    show mkEvent .timerange (.kpair b en) (jsObject (d.map Prod.fst) (d.map Prod.snd))
      = .ok (.timerange b en d)
    rw [jsObject_roundtrip d hnd]
    rfl
  | indexed idx d =>
    show mkEvent .index (.kstr idx) (jsObject (d.map Prod.fst) (d.map Prod.snd))
      = .ok (.indexed idx d)
    rw [jsObject_roundtrip d hnd]
    rfl

theorem mapM_map_ok (g : Ev → RawKey × List JsVal)
    (F : RawKey × List JsVal → Except JsErr Ev) :
    ∀ (l : List Ev), (∀ x ∈ l, F (g x) = .ok x) →
      (l.map g).mapM F = .ok l := by
  intro l
  induction l with
  | nil => intro _; rfl
  | cons x xs ih =>
    intro h
    rw [List.map_cons, List.mapM_cons, h x (List.mem_cons_self x xs),
      ih (fun y hy => h y (List.mem_cons_of_mem x hy))]
    rfl

theorem fromTabular_cons_ok (nm : Option String) (idx : Option String) (u : Bool)
    (ek : String) (fs : List String) (pts : List (RawKey × List JsVal))
    (v : Variant) (hv : eventOf ek = .ok v) (evs : List Ev)
    (hm : pts.mapM (fun p => mkEvent v p.1 (jsObject fs p.2)) = .ok evs)
    (hch : evChron evs = true) :
    fromTabular { name := nm, index := idx, utc := u, columns := ek :: fs,
                  points := pts }
      = .ok { name := nm.getD "", utc := true, indexMeta := idx,
              events := evs } := by
  simp only [fromTabular, hv, hm, hch, if_true]

/-- C7 (amended): the JSON tabular round trip
`fromTabular (toJSON s) is-equal s` holds for every chronologically
ordered series whose events all share one variant and one identical
(duplicate-free) column list — in particular for every series built from
tabular input — and whose stored utc flag is the default `true` (the
tabular path drops an explicit utc from the rebuilt metadata).  It does
NOT hold for every chronologically ordered series: events with differing
column sets lose and alias fields through the shared column header (see
the counterexample). -/
theorem toJSON_roundtrip (s : Series) (e0 : Ev) (cs : List String)
    (hhead : s.events.head? = some e0)
    (hvar : ∀ e ∈ s.events, variantOfEv e = variantOfEv e0)
    (hcols : ∀ e ∈ s.events, e.data.map Prod.fst = cs)
    (hnd : cs.Nodup)
    (hutc : s.utc = true)
    (hchron : evChron s.events = true) :
    ∃ tab, toJSON s = some tab ∧ fromTabular tab = .ok s ∧
      seriesIs s s = true := by
  have hne : s.events ≠ [] := by
    intro h
    rw [h] at hhead
    cases hhead
  have hcolumns : Series.columns s.events = cs :=
    columns_homogeneous cs hnd s.events hne hcols
  have htj : toJSON s
      = some { name := some s.name
               index := s.indexMeta
               utc := s.utc
               columns := variantStr e0 :: cs
               points := s.events.map Ev.toPoint } := by
    unfold toJSON atFirst
    rw [hhead, hcolumns]
  have hmm : (s.events.map Ev.toPoint).mapM
      (fun p => mkEvent (variantOfEv e0) p.1 (jsObject cs p.2))
      = .ok s.events := by
    apply mapM_map_ok
    intro e he
    have h1 : variantOfEv e = variantOfEv e0 := hvar e he
    have h2 : e.data.map Prod.fst = cs := hcols e he
    rw [← h1, ← h2]
    exact mkEvent_toPoint e (by rw [h2]; exact hnd)
  have hft := fromTabular_cons_ok (some s.name) s.indexMeta s.utc
    (variantStr e0) cs (s.events.map Ev.toPoint) (variantOfEv e0)
    (eventOf_variantStr e0) s.events hmm hchron
  have hs2 : ({ name := (some s.name).getD ""
                utc := true
                indexMeta := s.indexMeta
                events := s.events } : Series) = s := by
    cases s with
    | mk n u i evs =>
      simp only at hutc
      rw [hutc]
      rfl
  rw [hs2] at hft
  exact ⟨_, htj, hft,
    seriesIs_refl s (fun e he => by rw [hcols e he]; exact hnd)⟩

/-- C7 counterexample: a chronological series built from the event list
[(t=1000, data a=1), (t=2000, data b=2)] — two events with different
columns — does not survive the JSON round trip: `toJSON` writes the
shared header [time, a, b] but each point carries only its own event's
values positionally, so reconstruction reads event 2's value 2 under
column "a" and pads "b" with undefined, and the rebuilt series is not
value-equal to the original. -/
theorem toJSON_roundtrip_counterexample :
    fromEvents [Ev.time 1000 [("a", JsVal.num 1)],
                Ev.time 2000 [("b", JsVal.num 2)]]
        (MetaIn.mk (some "x") none none)
      = .ok (Series.mk "x" true none
          [Ev.time 1000 [("a", JsVal.num 1)],
           Ev.time 2000 [("b", JsVal.num 2)]]) ∧
    toJSON (Series.mk "x" true none
        [Ev.time 1000 [("a", JsVal.num 1)],
         Ev.time 2000 [("b", JsVal.num 2)]])
      = some (Tabular.mk (some "x") none true ["time", "a", "b"]
          [(.knum 1000, [JsVal.num 1]), (.knum 2000, [JsVal.num 2])]) ∧
    fromTabular (Tabular.mk (some "x") none true ["time", "a", "b"]
        [(.knum 1000, [JsVal.num 1]), (.knum 2000, [JsVal.num 2])])
      = .ok (Series.mk "x" true none
          [Ev.time 1000 [("a", JsVal.num 1), ("b", JsVal.undef)],
           Ev.time 2000 [("a", JsVal.num 2), ("b", JsVal.undef)]]) ∧
    seriesIs
      (Series.mk "x" true none
        [Ev.time 1000 [("a", JsVal.num 1)],
         Ev.time 2000 [("b", JsVal.num 2)]])
      (Series.mk "x" true none
        [Ev.time 1000 [("a", JsVal.num 1), ("b", JsVal.undef)],
         Ev.time 2000 [("a", JsVal.num 2), ("b", JsVal.undef)]])
      = false := by
  refine ⟨rfl, rfl, rfl, rfl⟩

/-- Witness: `toJSON_roundtrip` on a concrete homogeneous two-event
series with columns [value]. -/
theorem toJSON_roundtrip_witness :
    ∃ tab, toJSON (Series.mk "w" true none
        [Ev.time 1000 [("value", JsVal.num 3)],
         Ev.time 2000 [("value", JsVal.num 4)]]) = some tab ∧
      fromTabular tab
        = .ok (Series.mk "w" true none
            [Ev.time 1000 [("value", JsVal.num 3)],
             Ev.time 2000 [("value", JsVal.num 4)]]) ∧
      seriesIs
        (Series.mk "w" true none
          [Ev.time 1000 [("value", JsVal.num 3)],
           Ev.time 2000 [("value", JsVal.num 4)]])
        (Series.mk "w" true none
          [Ev.time 1000 [("value", JsVal.num 3)],
           Ev.time 2000 [("value", JsVal.num 4)]]) = true :=
  toJSON_roundtrip
    (Series.mk "w" true none
      [Ev.time 1000 [("value", JsVal.num 3)],
       Ev.time 2000 [("value", JsVal.num 4)]])
    (Ev.time 1000 [("value", JsVal.num 3)]) ["value"]
    rfl (by decide) (by decide) (by decide) rfl rfl

/-- Witness: `bufferDecodeFailure_raises` evaluated against a concrete
candidate series. -/
theorem bufferDecodeFailure_raises_witness :
    fromBuffer none = .error JsErr.typeError ∧
    fromBuffer none ≠ .ok (Series.mk "" true none []) :=
  ⟨bufferDecodeFailure_raises.1,
   bufferDecodeFailure_raises.2 (Series.mk "" true none [])⟩

/-- Witness: `evKey_canonical` at concrete range and indexed events. -/
theorem evKey_canonical_witness :
    (evKey (Ev.timerange 100 200 []) = jsIntStr 100 ++ "," ++ jsIntStr 200 ∧
      (evKey (Ev.timerange 100 200 []) = evKey (Ev.timerange 100 300 []) ↔
        (100 : Int) = 100 ∧ (200 : Int) = 300)) ∧
    (evKey (Ev.indexed "1d-5" []) = "1d-5" ∧
      (evKey (Ev.indexed "1d-5" []) = evKey (Ev.indexed "1d-5" []) ↔
        "1d-5" = "1d-5")) :=
  ⟨evKey_canonical.1 100 200 [] 100 300 [], evKey_canonical.2 "1d-5" [] "1d-5" []⟩
